import Mathlib

/-!
A shallow embedding of the ABAQUS INP extraction tool
(`scripts/parse.py` and `scripts/extractor.py`), together with theorems
settling the specification's claims about it.

Python strings are modelled as Lean `String`, Python string operations as
explicit list-of-characters functions (ASCII model), Python dicts as
association lists with insertion-order semantics (assignment to an existing
key replaces the value in place; a new key is appended), and Python sets as
`Finset` (the program only observes sets through membership, emptiness, and
sorted iteration, all order-independent).
-/

namespace Abq

/-- Characters stripped by Python `str.strip()` (ASCII whitespace model). -/
def isPyWS (c : Char) : Bool :=
  c = ' ' || c = '\t' || c = '\n' || c = '\r' || c = '\x0b' || c = '\x0c'

/-- Python `str.strip()`. -/
def pyStrip (s : String) : String :=
  String.mk (((s.toList.dropWhile isPyWS).reverse.dropWhile isPyWS).reverse)

/-- Python `str.rstrip()`. -/
def pyRstrip (s : String) : String :=
  String.mk ((s.toList.reverse.dropWhile isPyWS).reverse)

/-- Python `str.lower()` (ASCII model). -/
def pyLower (s : String) : String :=
  String.mk (s.toList.map Char.toLower)

/-- Python `str.startswith(p)`. -/
def pyStartsWith (s p : String) : Bool :=
  p.toList.isPrefixOf s.toList

/-- Python `str.isdigit()` (ASCII model): nonempty and all decimal digits. -/
def pyIsdigit (s : String) : Bool :=
  !s.toList.isEmpty && s.toList.all Char.isDigit

/-- Helper for `pySplit`: split a character list on a separator character. -/
def splitCharAux (sep : Char) : List Char → List Char → List (List Char)
  | [], acc => [acc.reverse]
  | x :: xs, acc =>
      if x = sep then acc.reverse :: splitCharAux sep xs []
      else splitCharAux sep xs (x :: acc)

/-- Python `str.split(sep)` for a one-character separator:
`"".split(",") = [""]`, `"a,,b".split(",") = ["a","","b"]`. -/
def pySplit (s : String) (sep : Char) : List String :=
  (splitCharAux sep s.toList []).map String.mk

/-- Join string pieces with `=` (used to model `token.split('=', 1)`:
the value is everything after the first `=`). -/
def joinWithEq : List String → String
  | [] => ""
  | [x] => x
  | x :: xs => x ++ "=" ++ joinWithEq xs

/-- Tail of a Python integer literal after its first digit:
optional single underscores strictly between digits. -/
def pyDigitTail : List Char → Bool
  | [] => true
  | ['_'] => false
  | '_' :: c :: rest => c.isDigit && pyDigitTail rest
  | c :: rest => c.isDigit && pyDigitTail rest

/-- A valid Python integer digit sequence (nonempty, underscores only
between digits). -/
def pyDigitStr : List Char → Bool
  | [] => false
  | c :: rest => c.isDigit && pyDigitTail rest

/-- Decimal value of a digit sequence, skipping underscores. -/
def digitsValNat (l : List Char) : ℕ :=
  l.foldl (fun a c => if c = '_' then a else a * 10 + (c.toNat - 48)) 0

/-- Python `int(s)`: strip whitespace, optional sign, digit sequence;
`none` models a raised `ValueError`. -/
def pyInt (s : String) : Option ℤ :=
  match (pyStrip s).toList with
  | '+' :: rest => if pyDigitStr rest then some ((digitsValNat rest : ℕ) : ℤ) else none
  | '-' :: rest => if pyDigitStr rest then some (-((digitsValNat rest : ℕ) : ℤ)) else none
  | l => if pyDigitStr l then some ((digitsValNat l : ℕ) : ℤ) else none

/-- Python dict assignment `d[k] = v`: replace in place if the key exists
(keeping its position), otherwise append. -/
def dictInsert {α β : Type} [DecidableEq α] (d : List (α × β)) (k : α) (v : β) :
    List (α × β) :=
  if d.any (fun p => p.1 = k) then
    d.map (fun p => if p.1 = k then (k, v) else p)
  else d ++ [(k, v)]

/-- Python `d.get(k)` / `d[k]` presence: first (unique) binding of `k`. -/
def dictGet {α β : Type} [DecidableEq α] (d : List (α × β)) (k : α) : Option β :=
  (d.find? (fun p => p.1 = k)).map Prod.snd

/-- Python `d.get(k, dflt)`. -/
def dictGetD {α β : Type} [DecidableEq α] (d : List (α × β)) (k : α) (dflt : β) : β :=
  (dictGet d k).getD dflt

/-- A block of the INP file (`parse.Block`): keyword, options mapping,
raw lines, and — set only for element blocks — the memoized node-id set
(`None` in the source for every other block and never read there;
modelled with the default `∅`). -/
structure Block where
  keyword : String
  options : List (String × String)
  lines : List String
  nodes : Finset ℤ := ∅
  deriving DecidableEq

/-- A default block value for total lookups in statements. -/
def defBlock : Block := { keyword := "", options := [], lines := [] }

/-- The routing table `parse.BLOCK_ROUTING`:
keyword maps to (target collection, index option key, operation). -/
def BLOCK_ROUTING : List (String × (String × Option String × String)) :=
  [("element", ("elements", some "elset", "index")),
   ("nset", ("nsets", some "nset", "index")),
   ("elset", ("elsets", some "elset", "index")),
   ("material", ("materials", some "name", "index")),
   ("solid section", ("sections", some "elset", "index")),
   ("shell section", ("sections", some "elset", "index")),
   ("beam section", ("sections", some "elset", "index")),
   ("connector section", ("sections", some "elset", "index")),
   ("membrane section", ("sections", some "elset", "index")),
   ("surface section", ("sections", some "elset", "index")),
   ("cohesive section", ("sections", some "elset", "index")),
   ("gasket section", ("sections", some "elset", "index")),
   ("truss section", ("sections", some "elset", "index")),
   ("frame section", ("sections", some "elset", "index")),
   ("connector behavior", ("connector_behaviors", some "name", "index")),
   ("coupling", ("constraints", none, "append")),
   ("kinematic", ("constraints", none, "append")),
   ("distributing", ("constraints", none, "append")),
   ("rigid body", ("constraints", none, "append")),
   ("mpc", ("constraints", none, "append")),
   ("tie", ("constraints", none, "append")),
   ("equation", ("constraints", none, "append")),
   ("embedded region", ("constraints", none, "append")),
   ("shell to solid coupling", ("constraints", none, "append")),
   ("cyclic symmetry model", ("constraints", none, "append"))]

/-- `keyword in BLOCK_ROUTING` / `BLOCK_ROUTING[keyword]`. -/
def routeLookup (kw : String) : Option (String × Option String × String) :=
  dictGet BLOCK_ROUTING kw

/-- The parsed document (`parse.parse_inp_file`'s result dict). -/
structure ParsedData where
  nodes : List (ℤ × String)
  elements : List (String × Block)
  materials : List (String × Block)
  sections : List (String × Block)
  constraints : List Block
  nsets : List (String × Block)
  elsets : List (String × Block)
  connector_behaviors : List (String × Block)
  others : List Block
  deriving DecidableEq

/-- The empty result dict initialised at the top of `parse_inp_file`. -/
def emptyParsed : ParsedData :=
  { nodes := [], elements := [], materials := [], sections := [],
    constraints := [], nsets := [], elsets := [], connector_behaviors := [],
    others := [] }

/-- Projection of a `ParsedData` collection by its routing-table name
(used to state properties of `_save_block` generically). -/
def getCollection (r : ParsedData) (target : String) : List (String × Block) :=
  if target = "elements" then r.elements
  else if target = "materials" then r.materials
  else if target = "sections" then r.sections
  else if target = "nsets" then r.nsets
  else if target = "elsets" then r.elsets
  else if target = "connector_behaviors" then r.connector_behaviors
  else []

/-- Store a block in the indexed collection named `target`
(the `result[target_dict][key_value] = block` line of `_save_block`). -/
def indexInto (r : ParsedData) (target : String) (key : String) (b : Block) :
    ParsedData :=
  if target = "elements" then { r with elements := dictInsert r.elements key b }
  else if target = "materials" then { r with materials := dictInsert r.materials key b }
  else if target = "sections" then { r with sections := dictInsert r.sections key b }
  else if target = "nsets" then { r with nsets := dictInsert r.nsets key b }
  else if target = "elsets" then { r with elsets := dictInsert r.elsets key b }
  else if target = "connector_behaviors" then
    { r with connector_behaviors := dictInsert r.connector_behaviors key b }
  else r

/-- Append a block to the list collection named `target`
(the `result[target_dict].append(block)` line of `_save_block`;
every `append` route targets `constraints`). -/
def appendInto (r : ParsedData) (target : String) (b : Block) : ParsedData :=
  if target = "constraints" then { r with constraints := r.constraints ++ [b] }
  else r

/-- Parse the fields of one element data line, mirroring the `try` body in
`_save_block`: fields are parsed left to right and the first unparsable
field raises `ValueError`, abandoning the rest of the line (fields already
added are kept). -/
def collectUntilFail : List String → List ℤ
  | [] => []
  | p :: rest =>
      match pyInt (pyStrip p) with
      | some n => n :: collectUntilFail rest
      | none => []

/-- Node ids contributed by one element data line: split on commas, skip
the first field (the element id), then `collectUntilFail` on the rest. -/
def elementLineNodes (line : String) : List ℤ :=
  collectUntilFail ((pySplit line ',').drop 1)

/-- The node-id set memoized on an element block (`_save_block`'s
element special case): every data line (keyword line skipped, blank and
`*`-initial lines skipped) contributes `elementLineNodes`. -/
def elementNodes (lines : List String) : Finset ℤ :=
  (lines.drop 1).foldl
    (fun acc line =>
      if pyStrip line = "" || pyStartsWith (pyStrip line) "**"
          || pyStartsWith (pyStrip line) "*" then acc
      else acc ∪ (elementLineNodes line).toFinset) ∅

/-- The block constructed by `_save_block`, with the node-id set attached
when the keyword is `element`. -/
def routedBlock (keyword : String) (options : List (String × String))
    (lines : List String) : Block :=
  if keyword = "element" then
    { keyword := keyword, options := options, lines := lines,
      nodes := elementNodes lines }
  else { keyword := keyword, options := options, lines := lines }

/-- `parse._save_block`: route a completed block through `BLOCK_ROUTING`.
Unknown keywords go to `others` (unreachable from `parse_inp_file`, which
only opens blocks for routed keywords); `append` blocks are appended to
`constraints`; `index` blocks are stored under the lowercased value of the
index option, silently dropped when that value is absent or empty. -/
def _save_block (r : ParsedData) (keyword : String)
    (options : List (String × String)) (lines : List String) : ParsedData :=
  match routeLookup keyword with
  | none => { r with others := r.others ++ [routedBlock keyword options lines] }
  | some (target, indexKey, operation) =>
      if operation = "append" then
        appendInto r target (routedBlock keyword options lines)
      else if operation = "index" then
        let key_value := pyLower (dictGetD options (indexKey.getD "") "")
        if key_value ≠ "" then
          indexInto r target key_value (routedBlock keyword options lines)
        else r
      else r

/-- The integer parsed from a line's leading comma-field
(`int(line.split(',')[0].strip())`); `none` models the caught
`ValueError`. -/
def leadField (line : String) : Option ℤ :=
  pyInt (pyStrip ((pySplit line ',').headD ""))

/-- `parse._save_node_block`: store each data line under its parsed leading
integer field; blank lines, `**` comments, and `*`-initial lines are
skipped; an unparsable leading field is skipped silently. -/
def _save_node_block (r : ParsedData) (lines : List String) : ParsedData :=
  (lines.drop 1).foldl
    (fun res line =>
      if pyStrip line = "" || pyStartsWith (pyStrip line) "**"
          || pyStartsWith line "*" then res
      else
        match leadField line with
        | some n => { res with nodes := dictInsert res.nodes n line }
        | none => res) r

/-- `parse.parse_keyword_line`: keyword (lowercased) and options mapping
(keys lowercased and trimmed, values trimmed with case preserved). -/
def parse_keyword_line (line : String) : Option String × List (String × String) :=
  let line := pyStrip line
  if !pyStartsWith line "*" || pyStartsWith line "**" then (none, [])
  else
    let tokens := (((pySplit (String.mk (line.toList.drop 1)) ',').map pyStrip).filter
      (fun t => t ≠ ""))
    match tokens with
    | [] => (none, [])
    | kw :: rest =>
        let options := rest.foldl
          (fun opts token =>
            let parts := pySplit token '='
            if parts.length ≥ 2 then
              dictInsert opts (pyLower (pyStrip (parts.headD "")))
                (pyStrip (joinWithEq (parts.drop 1)))
            else opts) []
        (some (pyLower kw), options)

/-- The mutable state of the `parse_inp_file` reading loop. -/
structure ParseState where
  result : ParsedData
  current_keyword : Option String
  current_options : List (String × String)
  current_lines : List String
  deriving DecidableEq

/-- Flush the currently open block (`node` blocks to `_save_node_block`,
others to `_save_block`, nothing when no block is open). -/
def flushCurrent (st : ParseState) : ParsedData :=
  match st.current_keyword with
  | some kw =>
      if kw = "node" then _save_node_block st.result st.current_lines
      else _save_block st.result kw st.current_options st.current_lines
  | none => st.result

/-- Append a line to the open block's raw lines; discard it when no block
is open. -/
def accumulateLine (st : ParseState) (line : String) : ParseState :=
  if st.current_keyword.isSome then
    { st with current_lines := st.current_lines ++ [line] }
  else st

/-- One iteration of the `parse_inp_file` loop on a raw input line. -/
def processLine (st : ParseState) (rawLine : String) : ParseState :=
  let line := pyRstrip rawLine
  if pyStrip line = "" || pyStartsWith (pyStrip line) "**" then
    accumulateLine st line
  else if pyStartsWith line "*" then
    let kw := parse_keyword_line line
    if kw.1 = some "node" then
      { result := flushCurrent st, current_keyword := some "node",
        current_options := kw.2, current_lines := [line] }
    else if (match kw.1 with
             | some k => (routeLookup k).isSome
             | none => false) then
      { result := flushCurrent st, current_keyword := kw.1,
        current_options := kw.2, current_lines := [line] }
    else accumulateLine st line
  else accumulateLine st line

/-- `parse.parse_inp_file`, over the file's list of raw lines. -/
def parse_inp_file (inpLines : List String) : ParsedData :=
  flushCurrent (inpLines.foldl processLine
    { result := emptyParsed, current_keyword := none,
      current_options := [], current_lines := [] })

/-- `extractor._get_nodes_from_data_lines`: per field, `isdigit` test then
`int` (never aborts a line; `*`-initial lines are NOT skipped here, only
blank lines and `**` comments). -/
def _get_nodes_from_data_lines (lines : List String) : Finset ℤ :=
  (lines.drop 1).foldl
    (fun acc line =>
      if pyStrip line = "" || pyStartsWith (pyStrip line) "**" then acc
      else acc ∪ ((pySplit line ',').filterMap
        (fun part =>
          if pyIsdigit (pyStrip part) then pyInt (pyStrip part) else none)).toFinset)
    ∅

/-- `extractor._validate_constraint`: a constraint is relevant iff its
`ref node` is numeric and in `all_nodes`, or its lowercased `elset` is a
requested name, or a node in its data lines is in `all_nodes`. -/
def _validate_constraint (block : Block) (all_nodes : Finset ℤ)
    (target_elsets : List String) : Bool :=
  (pyIsdigit (dictGetD block.options "ref node" "") &&
    decide (((pyInt (dictGetD block.options "ref node" "")).getD 0) ∈ all_nodes))
  || decide (pyLower (dictGetD block.options "elset" "") ∈ target_elsets)
  || decide ((_get_nodes_from_data_lines block.lines ∩ all_nodes).Nonempty)

/-- The accumulating state of the constraint stage of
`extract_complete_model` (three Python sets, mutated in place). -/
structure ExtractState where
  required_nsets : Finset String
  required_elsets : Finset String
  all_nodes : Finset ℤ
  deriving DecidableEq

/-- One iteration of the option-key loop in
`_collect_constraint_dependencies`: when the option value is a nonempty
name of a defined nset, record the name and union the nset's member
node ids. -/
def collectNsetKey (block : Block) (pd : ParsedData) (key : String)
    (acc : Finset String × Finset ℤ) : Finset String × Finset ℤ :=
  let nset_name := pyLower (dictGetD block.options key "")
  if nset_name ≠ "" then
    match dictGet pd.nsets nset_name with
    | some nb => (insert nset_name acc.1, acc.2 ∪ _get_nodes_from_data_lines nb.lines)
    | none => acc
  else acc

/-- `extractor._collect_constraint_dependencies`: add the numeric
`ref node` and all data-line nodes to `all_nodes`; for the option keys
`ref node`, `tie nset`, `nset` naming defined nsets, record the name and
union the member nodes; an `elset` option naming a defined elset is
recorded without unioning its membership. -/
def _collect_constraint_dependencies (block : Block) (pd : ParsedData)
    (st : ExtractState) : ExtractState :=
  let ref_node := dictGetD block.options "ref node" ""
  let all1 := if pyIsdigit ref_node then
      insert ((pyInt ref_node).getD 0) st.all_nodes else st.all_nodes
  let all2 := all1 ∪ _get_nodes_from_data_lines block.lines
  let acc1 := collectNsetKey block pd "ref node" (st.required_nsets, all2)
  let acc2 := collectNsetKey block pd "tie nset" acc1
  let acc3 := collectNsetKey block pd "nset" acc2
  let elset_name := pyLower (dictGetD block.options "elset" "")
  let re := if elset_name ≠ "" ∧ (dictGet pd.elsets elset_name).isSome then
      insert elset_name st.required_elsets else st.required_elsets
  { required_nsets := acc3.1, required_elsets := re, all_nodes := acc3.2 }

/-- Step 1 of `extract_complete_model`: the element blocks whose index key
is a requested (lowercased) name, in the dictionary's order. -/
def targetElementBlocks (pd : ParsedData) (tl : List String) :
    List (String × Block) :=
  pd.elements.filter (fun p => decide (p.1 ∈ tl))

/-- Step 1 of `extract_complete_model`: union of the selected element
blocks' memoized node-id sets. -/
def step1Nodes (pd : ParsedData) (tl : List String) : Finset ℤ :=
  (targetElementBlocks pd tl).foldl (fun acc p => acc ∪ p.2.nodes) ∅

/-- One iteration of the constraint loop of `extract_complete_model`:
test the constraint against the node set accumulated SO FAR, and on
success append it and gather its dependencies into the state. -/
def constraintStep (pd : ParsedData) (tl : List String)
    (acc : List Block × ExtractState) (block : Block) :
    List Block × ExtractState :=
  if _validate_constraint block acc.2.all_nodes tl then
    (acc.1 ++ [block], _collect_constraint_dependencies block pd acc.2)
  else acc

/-- The state entering the constraint loop: empty nset/elset requirements
and the Step-1 node set. -/
def initExtractState (pd : ParsedData) (tl : List String) : ExtractState :=
  { required_nsets := ∅, required_elsets := ∅, all_nodes := step1Nodes pd tl }

/-- The constraint stage of `extract_complete_model`: a single in-order
pass over `parsed_data['constraints']`. -/
def constraintLoop (pd : ParsedData) (tl : List String) :
    List Block × ExtractState :=
  pd.constraints.foldl (constraintStep pd tl) ([], initExtractState pd tl)

/-- Step 4 of `extract_complete_model`: section blocks whose index key is
a requested name. -/
def targetSectionBlocks (pd : ParsedData) (tl : List String) :
    List (String × Block) :=
  pd.sections.filter (fun p => decide (p.1 ∈ tl))

/-- Step 5: material names referenced by the selected sections
(stripped, then lowercased; empty values skipped). -/
def referencedMaterials (pd : ParsedData) (tl : List String) : Finset String :=
  (targetSectionBlocks pd tl).foldl
    (fun acc p =>
      let m := pyStrip (dictGetD p.2.options "material" "")
      if m ≠ "" then insert (pyLower m) acc else acc) ∅

/-- Step 5: connector-behavior names referenced by the selected sections. -/
def referencedBehaviors (pd : ParsedData) (tl : List String) : Finset String :=
  (targetSectionBlocks pd tl).foldl
    (fun acc p =>
      let m := pyStrip (dictGetD p.2.options "behavior" "")
      if m ≠ "" then insert (pyLower m) acc else acc) ∅

/-- Step 5: material blocks whose name is referenced by a selected
section, in the materials dictionary's order. -/
def targetMaterialBlocks (pd : ParsedData) (tl : List String) :
    List (String × Block) :=
  pd.materials.filter (fun p => decide (p.1 ∈ referencedMaterials pd tl))

/-- Step 5: connector-behavior blocks whose name is referenced. -/
def targetBehaviorBlocks (pd : ParsedData) (tl : List String) :
    List (String × Block) :=
  pd.connector_behaviors.filter
    (fun p => decide (p.1 ∈ referencedBehaviors pd tl))

/-- Block lines with `**` comment lines removed (`_write_output_file`'s
filter for nset, elset, section, material, and behavior blocks; blank
lines and the keyword line are kept). -/
def stripBlockLines (lines : List String) : List String :=
  lines.filter (fun line => !pyStartsWith (pyStrip line) "**")

/-- Element data lines re-emitted by `_write_output_file`: nonblank, not a
`**` comment, not `*`-initial. -/
def elementDataLines (lines : List String) : List String :=
  (lines.drop 1).filter
    (fun line => pyStrip line ≠ "" && !pyStartsWith (pyStrip line) "**"
      && !pyStartsWith line "*")

/-- Fuel-driven ascending enumeration of a finite integer set
(repeatedly take the minimum); fully reduces in the kernel. -/
def finSortAscAux : ℕ → Finset ℤ → List ℤ
  | 0, _ => []
  | fuel + 1, s =>
      if h : s.Nonempty then
        s.min' h :: finSortAscAux fuel (s.erase (s.min' h))
      else []

/-- Python `sorted(s)` for a set of integers: the elements in strictly
ascending order. -/
def finSortAsc (s : Finset ℤ) : List ℤ :=
  finSortAscAux s.card s

/-- The node ids emitted in the output's node block:
`sorted(nodes_needed)` restricted to ids defined in the `nodes` mapping. -/
def nodeSectionIds (pd : ParsedData) (needed : Finset ℤ) : List ℤ :=
  (finSortAsc needed).filter (fun n => (dictGet pd.nodes n).isSome)

/-- The `f.write` payloads of the output header
(`*HEADING`, title line, optional source comment, separator). -/
def headerChunks (target_elsets : List String) (source_file : Option String) :
    List String :=
  ["*HEADING\n",
   "Extracted model - ELSETs: " ++ String.intercalate ", " (target_elsets.take 3)]
  ++ (if target_elsets.length > 3 then
        [" and " ++ toString (target_elsets.length - 3) ++ " more"] else [])
  ++ ["\n"]
  ++ (match source_file with
      | some s => if s ≠ "" then ["** Source: " ++ s ++ "\n"] else []
      | none => [])
  ++ ["**\n"]

/-- The `f.write` payloads of the output node section. -/
def nodeChunks (pd : ParsedData) (needed : Finset ℤ) : List String :=
  "*NODE\n" :: (nodeSectionIds pd needed).map (fun n => dictGetD pd.nodes n "" ++ "\n")

/-- The `f.write` payloads of the output element sections: rebuilt header
line plus the filtered data lines, per selected block in order. -/
def elementChunks (element_blocks : List (String × Block)) : List String :=
  (element_blocks.map (fun p =>
    ("*Element, Type=" ++ dictGetD p.2.options "type" "UNKNOWN"
      ++ ", Elset=" ++ p.1 ++ "\n")
    :: (elementDataLines p.2.lines).map (fun l => l ++ "\n"))).flatten

/-- The `f.write` payloads for an indexed collection restricted to a
required-name set, comments stripped (nset and elset sections). -/
def requiredChunks (d : List (String × Block)) (required : Finset String) :
    List String :=
  ((d.filter (fun p => decide (p.1 ∈ required))).map
    (fun p => (stripBlockLines p.2.lines).map (fun l => l ++ "\n"))).flatten

/-- The `f.write` payloads for an already-filtered block dictionary,
comments stripped (section, material, and behavior sections). -/
def blocksChunks (blocks : List (String × Block)) : List String :=
  (blocks.map (fun p => (stripBlockLines p.2.lines).map (fun l => l ++ "\n"))).flatten

/-- The `f.write` payloads of the constraint section: every raw line
verbatim, comments retained. -/
def constraintChunks (constraints : List Block) : List String :=
  (constraints.map (fun b => b.lines.map (fun l => l ++ "\n"))).flatten

/-- `extractor._write_output_file` as the ordered list of `f.write`
payloads (the output document is their concatenation). -/
def _write_output_file (source_file : Option String) (target_elsets : List String)
    (pd : ParsedData) (nodes_needed : Finset ℤ)
    (element_blocks section_blocks material_blocks behavior_blocks :
      List (String × Block))
    (constraints : List Block) (required_nsets required_elsets : Finset String) :
    List String :=
  headerChunks target_elsets source_file
  ++ nodeChunks pd nodes_needed
  ++ elementChunks element_blocks
  ++ requiredChunks pd.nsets required_nsets
  ++ requiredChunks pd.elsets required_elsets
  ++ blocksChunks section_blocks
  ++ blocksChunks material_blocks
  ++ blocksChunks behavior_blocks
  ++ constraintChunks constraints

/-- `extractor.extract_complete_model`: the full extraction pipeline,
returning the output document's write payloads. -/
def extract_complete_model (pd : ParsedData) (target_elsets : List String)
    (source_file : Option String) : List String :=
  let tl := target_elsets.map pyLower
  let loopRes := constraintLoop pd tl
  _write_output_file source_file target_elsets pd loopRes.2.all_nodes
    (targetElementBlocks pd tl) (targetSectionBlocks pd tl)
    (targetMaterialBlocks pd tl) (targetBehaviorBlocks pd tl)
    loopRes.1 loopRes.2.required_nsets loopRes.2.required_elsets

/-- The output document as one string. -/
def extractOutputString (pd : ParsedData) (target_elsets : List String)
    (source_file : Option String) : String :=
  String.join (extract_complete_model pd target_elsets source_file)

/-- The serializer applied to explicit list representations of the three
set-valued inputs the Python code hands it (`all_nodes_needed`,
`required_nsets`, `required_elsets` are Python sets, whose enumeration
order is unspecified): the output factors through the sets' contents. -/
def writeOutputOfReprs (source_file : Option String) (target_elsets : List String)
    (pd : ParsedData)
    (nodesRepr : List ℤ)
    (element_blocks section_blocks material_blocks behavior_blocks :
      List (String × Block))
    (constraints : List Block) (nsetsRepr elsetsRepr : List String) :
    List String :=
  _write_output_file source_file target_elsets pd nodesRepr.toFinset
    element_blocks section_blocks material_blocks behavior_blocks
    constraints nsetsRepr.toFinset elsetsRepr.toFinset

/-! ### Helper lemmas -/

theorem finSortAscAux_mem (fuel : ℕ) :
    ∀ (s : Finset ℤ), s.card ≤ fuel → ∀ x, x ∈ finSortAscAux fuel s ↔ x ∈ s := by
  induction fuel with
  | zero =>
      intro s hs x
      have hse : s = ∅ := Finset.card_eq_zero.mp (Nat.le_zero.mp hs)
      subst hse
      simp [finSortAscAux]
  | succ n ih =>
      intro s hs x
      by_cases h : s.Nonempty
      · have hm := Finset.min'_mem s h
        have hcard : (s.erase (s.min' h)).card ≤ n := by
          rw [Finset.card_erase_of_mem hm]
          omega
        simp only [finSortAscAux, dif_pos h, List.mem_cons, ih _ hcard,
          Finset.mem_erase]
        constructor
        · rintro (rfl | ⟨_, hx⟩)
          · exact hm
          · exact hx
        · intro hx
          by_cases hxm : x = s.min' h
          · exact Or.inl hxm
          · exact Or.inr ⟨hxm, hx⟩
      · have hse : s = ∅ := Finset.not_nonempty_iff_eq_empty.mp h
        subst hse
        simp [finSortAscAux]

theorem finSortAscAux_sorted (fuel : ℕ) :
    ∀ (s : Finset ℤ), s.card ≤ fuel →
      List.Sorted (· < ·) (finSortAscAux fuel s) := by
  induction fuel with
  | zero => intro s _; simp [finSortAscAux]
  | succ n ih =>
      intro s hs
      by_cases h : s.Nonempty
      · have hm := Finset.min'_mem s h
        have hcard : (s.erase (s.min' h)).card ≤ n := by
          rw [Finset.card_erase_of_mem hm]
          omega
        simp only [finSortAscAux, dif_pos h, List.sorted_cons]
        refine ⟨?_, ih _ hcard⟩
        intro b hb
        have hb' := (finSortAscAux_mem n _ hcard b).mp hb
        rw [Finset.mem_erase] at hb'
        exact lt_of_le_of_ne (Finset.min'_le s b hb'.2) (Ne.symm hb'.1)
      · simp [finSortAscAux, dif_neg h]

theorem finSortAsc_mem (s : Finset ℤ) (x : ℤ) : x ∈ finSortAsc s ↔ x ∈ s :=
  finSortAscAux_mem s.card s le_rfl x

theorem finSortAsc_sorted (s : Finset ℤ) : List.Sorted (· < ·) (finSortAsc s) :=
  finSortAscAux_sorted s.card s le_rfl

theorem finSortAsc_nodup (s : Finset ℤ) : (finSortAsc s).Nodup :=
  (finSortAsc_sorted s).imp ne_of_lt

theorem dictGet_nil {α β : Type} [DecidableEq α] (k : α) :
    dictGet ([] : List (α × β)) k = none := rfl

theorem dictGet_cons {α β : Type} [DecidableEq α]
    (p : α × β) (d : List (α × β)) (k : α) :
    dictGet (p :: d) k = if p.1 = k then some p.2 else dictGet d k := by
  by_cases h : p.1 = k <;> simp [dictGet, List.find?, h]

theorem dictGet_dictInsert {α β : Type} [DecidableEq α]
    (d : List (α × β)) (k : α) (v : β) :
    dictGet (dictInsert d k v) k = some v := by
  unfold dictInsert
  by_cases hany : d.any (fun p => p.1 = k)
  · rw [if_pos hany]
    induction d with
    | nil => simp at hany
    | cons p d ih =>
        by_cases hp : p.1 = k
        · simp [dictGet_cons, List.map_cons, if_pos hp]
        · have hany' : d.any (fun p => p.1 = k) := by
            simp only [List.any_cons, Bool.or_eq_true, decide_eq_true_eq] at hany
            rcases hany with h | h
            · exact absurd h hp
            · exact h
          rw [List.map_cons, if_neg hp, dictGet_cons, if_neg hp]
          exact ih hany'
  · rw [if_neg hany]
    induction d with
    | nil => simp [dictGet_cons]
    | cons p d ih =>
        have hp : ¬ p.1 = k := by
          intro hpk
          exact hany (by simp [List.any_cons, hpk])
        have hany' : ¬ d.any (fun p => p.1 = k) := by
          intro h
          exact hany (by simp [List.any_cons, h])
        rw [List.cons_append, dictGet_cons, if_neg hp]
        exact ih hany'

theorem validate_mono (b : Block) (tl : List String) {N N' : Finset ℤ}
    (hNN : N ⊆ N') (h : _validate_constraint b N tl = true) :
    _validate_constraint b N' tl = true := by
  unfold _validate_constraint at h ⊢
  simp only [Bool.or_eq_true, Bool.and_eq_true, decide_eq_true_eq] at h ⊢
  rcases h with (⟨hd, hm⟩ | he) | hn
  · exact Or.inl (Or.inl ⟨hd, hNN hm⟩)
  · exact Or.inl (Or.inr he)
  · exact Or.inr (hn.mono (Finset.inter_subset_inter (Finset.Subset.refl _) hNN))

theorem collectNsetKey_snd_subset (block : Block) (pd : ParsedData)
    (key : String) (acc : Finset String × Finset ℤ) :
    acc.2 ⊆ (collectNsetKey block pd key acc).2 := by
  unfold collectNsetKey
  by_cases h : pyLower (dictGetD block.options key "") ≠ ""
  · rw [if_pos h]
    cases hget : dictGet pd.nsets (pyLower (dictGetD block.options key "")) with
    | none => exact Finset.Subset.refl _
    | some nb => exact Finset.subset_union_left
  · rw [if_neg h]

theorem collect_all_nodes_subset (block : Block) (pd : ParsedData)
    (st : ExtractState) :
    st.all_nodes ⊆ (_collect_constraint_dependencies block pd st).all_nodes := by
  unfold _collect_constraint_dependencies
  dsimp only
  have h1 : st.all_nodes ⊆
      (if pyIsdigit (dictGetD block.options "ref node" "") then
        insert ((pyInt (dictGetD block.options "ref node" "")).getD 0) st.all_nodes
      else st.all_nodes) := by
    by_cases h : pyIsdigit (dictGetD block.options "ref node" "")
    · rw [if_pos h]
      exact Finset.subset_insert _ _
    · rw [if_neg h]
  intro x hx
  refine collectNsetKey_snd_subset block pd "nset" _ ?_
  refine collectNsetKey_snd_subset block pd "tie nset" _ ?_
  refine collectNsetKey_snd_subset block pd "ref node" _ ?_
  exact Finset.mem_union_left _ (h1 hx)

theorem constraintStep_nodes_mono (pd : ParsedData) (tl : List String)
    (acc : List Block × ExtractState) (b : Block) :
    acc.2.all_nodes ⊆ (constraintStep pd tl acc b).2.all_nodes := by
  unfold constraintStep
  by_cases h : _validate_constraint b acc.2.all_nodes tl
  · rw [if_pos h]
    exact collect_all_nodes_subset b pd acc.2
  · rw [if_neg h]

theorem loop_nodes_mono (pd : ParsedData) (tl : List String) :
    ∀ (cs : List Block) (acc : List Block × ExtractState),
      acc.2.all_nodes ⊆ (cs.foldl (constraintStep pd tl) acc).2.all_nodes := by
  intro cs
  induction cs with
  | nil => intro acc; simp
  | cons c cs ih =>
      intro acc
      rw [List.foldl_cons]
      exact (constraintStep_nodes_mono pd tl acc c).trans (ih _)

theorem loop_fst_prefix (pd : ParsedData) (tl : List String) :
    ∀ (cs : List Block) (acc : List Block × ExtractState),
      ∃ l, (cs.foldl (constraintStep pd tl) acc).1 = acc.1 ++ l
        ∧ l.Sublist cs := by
  intro cs
  induction cs with
  | nil => intro acc; exact ⟨[], by simp, List.Sublist.refl []⟩
  | cons c cs ih =>
      intro acc
      rw [List.foldl_cons]
      unfold constraintStep
      by_cases h : _validate_constraint c acc.2.all_nodes tl
      · rw [if_pos h]
        obtain ⟨l, hl, hsub⟩ := ih (acc.1 ++ [c], _collect_constraint_dependencies c pd acc.2)
        exact ⟨c :: l, by simpa using hl, hsub.cons₂ c⟩
      · rw [if_neg h]
        obtain ⟨l, hl, hsub⟩ := ih acc
        exact ⟨l, hl, hsub.cons c⟩

theorem loop_self_prefix (pd : ParsedData) (tl : List String)
    (cs : List Block) (acc : List Block × ExtractState) (b : Block)
    (hb : b ∈ acc.1) : b ∈ (cs.foldl (constraintStep pd tl) acc).1 := by
  obtain ⟨l, hl, _⟩ := loop_fst_prefix pd tl cs acc
  rw [hl]
  exact List.mem_append_left l hb

theorem loop_complete (pd : ParsedData) (tl : List String) :
    ∀ (cs : List Block) (acc : List Block × ExtractState) (b : Block),
      b ∈ cs → _validate_constraint b acc.2.all_nodes tl = true →
      b ∈ (cs.foldl (constraintStep pd tl) acc).1 := by
  intro cs
  induction cs with
  | nil => intro acc b hb; exact absurd hb (List.not_mem_nil b)
  | cons c cs ih =>
      intro acc b hb hv
      rw [List.foldl_cons]
      rcases List.mem_cons.mp hb with rfl | hb'
      · have hstep : (constraintStep pd tl acc b).1 = acc.1 ++ [b] := by
          unfold constraintStep
          rw [if_pos hv]
        apply loop_self_prefix pd tl cs _ b
        rw [hstep]
        exact List.mem_append_right _ (List.mem_singleton_self b)
      · exact ih _ b hb'
          (validate_mono b tl (constraintStep_nodes_mono pd tl acc c) hv)

theorem loop_sound (pd : ParsedData) (tl : List String) :
    ∀ (cs : List Block) (acc : List Block × ExtractState),
      (∀ b ∈ acc.1, _validate_constraint b acc.2.all_nodes tl = true) →
      ∀ b ∈ (cs.foldl (constraintStep pd tl) acc).1,
        _validate_constraint b (cs.foldl (constraintStep pd tl) acc).2.all_nodes tl
          = true := by
  intro cs
  induction cs with
  | nil => intro acc hacc; exact hacc
  | cons c cs ih =>
      intro acc hacc
      rw [List.foldl_cons]
      apply ih
      intro b hb
      unfold constraintStep at hb ⊢
      by_cases h : _validate_constraint c acc.2.all_nodes tl
      · rw [if_pos h] at hb ⊢
        rcases List.mem_append.mp hb with hb' | hb'
        · exact validate_mono b tl (collect_all_nodes_subset c pd acc.2)
            (hacc b hb')
        · rw [List.mem_singleton.mp hb']
          exact validate_mono c tl (collect_all_nodes_subset c pd acc.2) h
      · rw [if_neg h] at hb ⊢
        exact hacc b hb

theorem foldl_union_subset_acc (l : List (String × Block)) :
    ∀ (acc : Finset ℤ), acc ⊆ l.foldl (fun a p => a ∪ p.2.nodes) acc := by
  induction l with
  | nil => intro acc; simp
  | cons q l ih =>
      intro acc
      rw [List.foldl_cons]
      exact Finset.Subset.trans Finset.subset_union_left (ih _)

theorem foldl_union_subset_mem (l : List (String × Block)) :
    ∀ (acc : Finset ℤ) (p : String × Block), p ∈ l →
      p.2.nodes ⊆ l.foldl (fun a p => a ∪ p.2.nodes) acc := by
  induction l with
  | nil => intro acc p hp; exact absurd hp (List.not_mem_nil p)
  | cons q l ih =>
      intro acc p hp
      rw [List.foldl_cons]
      rcases List.mem_cons.mp hp with rfl | hp'
      · exact Finset.Subset.trans Finset.subset_union_right
          (foldl_union_subset_acc l _)
      · exact ih _ p hp'

theorem nodes_subset_step1 (pd : ParsedData) (tl : List String)
    (k : String) (b : Block) (hb : (k, b) ∈ targetElementBlocks pd tl) :
    b.nodes ⊆ step1Nodes pd tl :=
  foldl_union_subset_mem (targetElementBlocks pd tl) ∅ (k, b) hb

theorem step1_subset_loop (pd : ParsedData) (tl : List String) :
    step1Nodes pd tl ⊆ (constraintLoop pd tl).2.all_nodes :=
  loop_nodes_mono pd tl pd.constraints ([], initExtractState pd tl)

theorem mem_dictInsert {α β : Type} [DecidableEq α]
    (d : List (α × β)) (k : α) (v : β) (p : α × β)
    (hp : p ∈ dictInsert d k v) : p ∈ d ∨ p = (k, v) := by
  unfold dictInsert at hp
  by_cases hany : d.any (fun q => q.1 = k)
  · rw [if_pos hany] at hp
    obtain ⟨q, hq, hfq⟩ := List.mem_map.mp hp
    by_cases hqk : q.1 = k
    · right
      rw [if_pos hqk] at hfq
      exact hfq.symm
    · left
      rw [if_neg hqk] at hfq
      exact hfq ▸ hq
  · rw [if_neg hany] at hp
    rcases List.mem_append.mp hp with h | h
    · exact Or.inl h
    · exact Or.inr (List.mem_singleton.mp h)

theorem _save_node_block_others (r : ParsedData) (lines : List String) :
    (_save_node_block r lines).others = r.others := by
  unfold _save_node_block
  generalize lines.drop 1 = l
  induction l generalizing r with
  | nil => rfl
  | cons x xs ih =>
      rw [List.foldl_cons, ih]
      split
      · rfl
      · split <;> rfl

theorem _save_node_block_elements (r : ParsedData) (lines : List String) :
    (_save_node_block r lines).elements = r.elements := by
  unfold _save_node_block
  generalize lines.drop 1 = l
  induction l generalizing r with
  | nil => rfl
  | cons x xs ih =>
      rw [List.foldl_cons, ih]
      split
      · rfl
      · split <;> rfl

theorem _save_block_nodes (r : ParsedData) (kw : String)
    (options : List (String × String)) (lines : List String) :
    (_save_block r kw options lines).nodes = r.nodes := by
  unfold _save_block appendInto indexInto
  dsimp only
  repeat' split
  all_goals rfl

theorem _save_block_others (r : ParsedData) (kw : String)
    (options : List (String × String)) (lines : List String)
    (h : (routeLookup kw).isSome) :
    (_save_block r kw options lines).others = r.others := by
  unfold _save_block appendInto indexInto
  dsimp only
  split
  · rename_i hnone
    rw [hnone] at h
    simp at h
  · repeat' split
    all_goals rfl

/-- Every keyword ever stored in `current_keyword` by `parse_inp_file` is
either `node` or routed. -/
def keywordOk : Option String → Prop
  | none => True
  | some k => k = "node" ∨ (routeLookup k).isSome

theorem flushCurrent_others (st : ParseState) (h1 : st.result.others = [])
    (h2 : keywordOk st.current_keyword) : (flushCurrent st).others = [] := by
  unfold flushCurrent
  cases hck : st.current_keyword with
  | none => exact h1
  | some k =>
      rw [hck] at h2
      by_cases hk : k = "node"
      · simp only [if_pos hk]
        rw [_save_node_block_others]
        exact h1
      · simp only [if_neg hk]
        rcases h2 with h2 | h2
        · exact absurd h2 hk
        · rw [_save_block_others _ _ _ _ h2]
          exact h1

theorem accumulateLine_fields (st : ParseState) (line : String) :
    (accumulateLine st line).result = st.result
      ∧ (accumulateLine st line).current_keyword = st.current_keyword := by
  unfold accumulateLine
  split <;> exact ⟨rfl, rfl⟩

theorem processLine_keywordOk (st : ParseState) (line : String)
    (h1 : st.result.others = []) (h2 : keywordOk st.current_keyword) :
    (processLine st line).result.others = []
      ∧ keywordOk (processLine st line).current_keyword := by
  have hacc : ∀ l, (accumulateLine st l).result.others = []
      ∧ keywordOk (accumulateLine st l).current_keyword := by
    intro l
    rw [(accumulateLine_fields st l).1, (accumulateLine_fields st l).2]
    exact ⟨h1, h2⟩
  unfold processLine
  dsimp only
  split
  · exact hacc _
  · split
    · split
      · exact ⟨flushCurrent_others st h1 h2, Or.inl rfl⟩
      · split
        · rename_i hguard
          refine ⟨flushCurrent_others st h1 h2, ?_⟩
          cases hk1 : (parse_keyword_line (pyRstrip line)).1 with
          | none => rw [hk1] at hguard; simp at hguard
          | some k =>
              rw [hk1] at hguard
              exact Or.inr hguard
        · exact hacc _
    · exact hacc _

theorem _save_node_block_keys (P : ℤ → Prop) (lines : List String) :
    ∀ (r : ParsedData), (∀ p ∈ r.nodes, P p.1) →
      (∀ l ∈ lines, ∀ n, leadField l = some n → P n) →
      ∀ p ∈ (_save_node_block r lines).nodes, P p.1 := by
  intro r hr hl
  have hdrop : ∀ l ∈ lines.drop 1, ∀ n, leadField l = some n → P n :=
    fun l hml => hl l (List.mem_of_mem_drop hml)
  unfold _save_node_block
  revert hdrop hr
  generalize lines.drop 1 = ds
  intro hr hdrop
  induction ds generalizing r with
  | nil => exact hr
  | cons x xs ih =>
      rw [List.foldl_cons]
      have hxs : ∀ l ∈ xs, ∀ n, leadField l = some n → P n :=
        fun l hml => hdrop l (List.mem_cons_of_mem x hml)
      apply ih _ _ hxs
      split
      · exact hr
      · rename_i hskip
        cases hlf : leadField x with
        | some n =>
            intro p hp
            rcases mem_dictInsert r.nodes n x p hp with h | h
            · exact hr p h
            · rw [h]
              exact hdrop x (List.mem_cons_self x xs) n hlf
        | none => exact hr

theorem flushCurrent_keys (P : ℤ → Prop) (st : ParseState)
    (hr : ∀ p ∈ st.result.nodes, P p.1)
    (hl : ∀ l ∈ st.current_lines, ∀ n, leadField l = some n → P n) :
    ∀ p ∈ (flushCurrent st).nodes, P p.1 := by
  unfold flushCurrent
  cases st.current_keyword with
  | none => exact hr
  | some k =>
      dsimp only
      split
      · exact _save_node_block_keys P st.current_lines st.result hr hl
      · rw [_save_block_nodes]
        exact hr

theorem processLine_keys (P : ℤ → Prop) (st : ParseState) (line : String)
    (hline : ∀ n, leadField (pyRstrip line) = some n → P n)
    (hr : ∀ p ∈ st.result.nodes, P p.1)
    (hl : ∀ l ∈ st.current_lines, ∀ n, leadField l = some n → P n) :
    (∀ p ∈ (processLine st line).result.nodes, P p.1)
      ∧ (∀ l ∈ (processLine st line).current_lines, ∀ n,
          leadField l = some n → P n) := by
  have hacc :
      (∀ p ∈ (accumulateLine st (pyRstrip line)).result.nodes, P p.1)
        ∧ (∀ l ∈ (accumulateLine st (pyRstrip line)).current_lines, ∀ n,
            leadField l = some n → P n) := by
    unfold accumulateLine
    split
    · refine ⟨hr, ?_⟩
      intro l hml
      rcases List.mem_append.mp hml with h | h
      · exact hl l h
      · rw [List.mem_singleton.mp h]
        exact hline
    · exact ⟨hr, hl⟩
  have hsingle : ∀ l ∈ [pyRstrip line], ∀ n, leadField l = some n → P n := by
    intro l hml
    rw [List.mem_singleton.mp hml]
    exact hline
  unfold processLine
  dsimp only
  split
  · exact hacc
  · split
    · split
      · exact ⟨flushCurrent_keys P st hr hl, hsingle⟩
      · split
        · exact ⟨flushCurrent_keys P st hr hl, hsingle⟩
        · exact hacc
    · exact hacc

theorem parse_fold_keys (P : ℤ → Prop) (ls : List String) :
    ∀ (st : ParseState),
      (∀ l ∈ ls, ∀ n, leadField (pyRstrip l) = some n → P n) →
      (∀ p ∈ st.result.nodes, P p.1) →
      (∀ l ∈ st.current_lines, ∀ n, leadField l = some n → P n) →
      (∀ p ∈ (ls.foldl processLine st).result.nodes, P p.1)
        ∧ (∀ l ∈ (ls.foldl processLine st).current_lines, ∀ n,
            leadField l = some n → P n) := by
  induction ls with
  | nil => intro st _ hr hl; exact ⟨hr, hl⟩
  | cons x xs ih =>
      intro st hls hr hl
      rw [List.foldl_cons]
      obtain ⟨hr', hl'⟩ := processLine_keys P st x
        (hls x (List.mem_cons_self x xs)) hr hl
      exact ih _ (fun l hml => hls l (List.mem_cons_of_mem x hml)) hr' hl'

theorem validate_of_elset (b : Block) (tl : List String) (N : Finset ℤ)
    (h : pyLower (dictGetD b.options "elset" "") ∈ tl) :
    _validate_constraint b N tl = true := by
  unfold _validate_constraint
  simp only [Bool.or_eq_true, Bool.and_eq_true, decide_eq_true_eq]
  exact Or.inl (Or.inr h)

theorem route_index_target (kw tgt ik : String)
    (h : routeLookup kw = some (tgt, some ik, "index")) :
    tgt = "elements" ∨ tgt = "materials" ∨ tgt = "sections" ∨ tgt = "nsets"
      ∨ tgt = "elsets" ∨ tgt = "connector_behaviors" := by
  unfold routeLookup dictGet at h
  obtain ⟨q, hq, hq2⟩ : ∃ q,
      List.find? (fun p => p.1 = kw) BLOCK_ROUTING = some q
        ∧ q.2 = (tgt, some ik, "index") := by
    cases hf : List.find? (fun p => p.1 = kw) BLOCK_ROUTING with
    | none => rw [hf] at h; simp at h
    | some q =>
        rw [hf] at h
        simp at h
        exact ⟨q, rfl, h⟩
  have hqmem : q ∈ BLOCK_ROUTING := List.mem_of_find?_eq_some hq
  unfold BLOCK_ROUTING at hqmem
  fin_cases hqmem <;> simp_all

theorem requiredChunks_decomp (req : Finset String)
    (l1 l2 l3 : List (String × Block)) (k1 k2 : String) (b1 b2 : Block)
    (h1 : k1 ∈ req) (h2 : k2 ∈ req) :
    ∃ c1 c2 c3,
      requiredChunks (l1 ++ (k1, b1) :: (l2 ++ (k2, b2) :: l3)) req
        = c1 ++ ((stripBlockLines b1.lines).map (fun l => l ++ "\n")
          ++ (c2 ++ ((stripBlockLines b2.lines).map (fun l => l ++ "\n")
            ++ c3))) := by
  refine ⟨requiredChunks l1 req, requiredChunks l2 req,
    requiredChunks l3 req, ?_⟩
  unfold requiredChunks
  simp [List.filter_append, List.filter_cons, h1, h2, List.map_append,
    List.flatten_append]

theorem parse_fold_others (ls : List String) :
    ∀ (st : ParseState), st.result.others = [] → keywordOk st.current_keyword →
      (ls.foldl processLine st).result.others = []
        ∧ keywordOk (ls.foldl processLine st).current_keyword := by
  induction ls with
  | nil => intro st h1 h2; exact ⟨h1, h2⟩
  | cons x xs ih =>
      intro st h1 h2
      rw [List.foldl_cons]
      obtain ⟨h1', h2'⟩ := processLine_keywordOk st x h1 h2
      exact ih _ h1' h2'

/-! ### Example documents used by counterexamples and witnesses -/

/-- A document whose tie constraint is relevant on the Step-1 node set
(`{1}`, from element set WHEEL) and, via `tie nset=NS1`, pulls node 50
into the needed-node set; the later coupling constraint references only
node 50. -/
def exDoc1 : ParsedData := parse_inp_file
  ["*Node", "1, 0., 0., 0.", "50, 1., 0., 0.",
   "*Element, Type=C3D8R, Elset=WHEEL", "10, 1",
   "*Nset, Nset=NS1", "50",
   "*Tie, Tie Nset=NS1", "1",
   "*Coupling", "50"]

/-- A document whose element block A references node 7, which has no node
definition line. -/
def exDoc2 : ParsedData := parse_inp_file
  ["*Node", "1, 0., 0., 0.", "*Element, Type=T, Elset=A", "10, 1, 7"]

/-- A document containing a keyword line with an unknown keyword in the
middle of an element block. -/
def exDoc3 : ParsedData := parse_inp_file
  ["*Element, Type=T, Elset=A", "10, 1", "*Bogus, X=1", "11, 2"]

/-- A document with an element data line whose third field is unparsable
and whose fourth field is a valid integer. -/
def exDoc5 : ParsedData := parse_inp_file
  ["*Element, Type=T, Elset=A", "10, 2, x, 3"]

/-- A document with a coupling constraint carrying `elset=HUB` and no data
lines (it shares no node ids with the requested elements). -/
def exDoc7 : ParsedData := parse_inp_file
  ["*Element, Type=T, Elset=HUB", "10, 1",
   "*Coupling, Elset=HUB"]

/-- Source lines in which nset A is defined (line 2), nset B is defined
(line 4), and nset A is redefined (line 6, the stored block), before a tie
constraint requiring both. -/
def exDoc8Lines : List String :=
  ["*Element, Type=T, Elset=W", "10, 1",
   "*Nset, Nset=A", "1",
   "*Nset, Nset=B", "1",
   "*Nset, Nset=A", "2",
   "*Tie, Tie Nset=A, Nset=B, Elset=W"]

/-- The parse of `exDoc8Lines`. -/
def exDoc8 : ParsedData := parse_inp_file exDoc8Lines

/-- A document with a node data line whose leading field is `-5`. -/
def exDoc9 : ParsedData := parse_inp_file ["*Node", "-5, 0., 0., 0."]

/-! ### Claims -/

/-- C1, counterexample: the claim says the relevance test uses only the
Step-1 node set, so that nodes gathered by a relevant constraint's
dependency hop never pull in another constraint. On `exDoc1` with group
`wheel`, the included constraints differ from those relevant on the
Step-1 set: the final coupling constraint is included although it is NOT
relevant on the Step-1 node set (it became relevant only through node 50,
gathered from the earlier tie constraint's `tie nset`). -/
theorem C1_counterexample :
    (constraintLoop exDoc1 ["wheel"]).1
        ≠ exDoc1.constraints.filter
            (fun b => _validate_constraint b (step1Nodes exDoc1 ["wheel"]) ["wheel"])
    ∧ exDoc1.constraints.getLastD defBlock ∈ (constraintLoop exDoc1 ["wheel"]).1
    ∧ _validate_constraint (exDoc1.constraints.getLastD defBlock)
        (step1Nodes exDoc1 ["wheel"]) ["wheel"] = false := by decide

/-- C1, amended: the constraint stage is one in-order pass in which each
constraint is tested against the needed-node set accumulated so far
(Step-1 nodes plus the dependencies gathered from earlier relevant
constraints). Hence (i) the included constraints are a sublist of the
source constraints, (ii) every constraint relevant on the Step-1 node set
alone is included — nodes gathered later can add a later constraint but
never remove or revisit one — and (iii) every included constraint is
relevant with respect to the final accumulated node set. -/
theorem C1_amended (pd : ParsedData) (tl : List String) :
    (constraintLoop pd tl).1.Sublist pd.constraints
    ∧ (∀ b ∈ pd.constraints,
        _validate_constraint b (step1Nodes pd tl) tl = true →
        b ∈ (constraintLoop pd tl).1)
    ∧ (∀ b ∈ (constraintLoop pd tl).1,
        _validate_constraint b (constraintLoop pd tl).2.all_nodes tl = true) := by
  refine ⟨?_, ?_, ?_⟩
  · obtain ⟨l, hl, hsub⟩ :=
      loop_fst_prefix pd tl pd.constraints ([], initExtractState pd tl)
    unfold constraintLoop
    rw [hl]
    simpa using hsub
  · intro b hb hv
    exact loop_complete pd tl pd.constraints ([], initExtractState pd tl) b hb hv
  · intro b hb
    exact loop_sound pd tl pd.constraints ([], initExtractState pd tl)
      (fun b' hb' => absurd hb' (List.not_mem_nil b')) b hb

/-- C1, witness for the amended theorem at `exDoc1`: the tie constraint is
relevant on the Step-1 set and therefore included. -/
theorem C1_amended_witness :
    exDoc1.constraints.headD defBlock ∈ (constraintLoop exDoc1 ["wheel"]).1 :=
  (C1_amended exDoc1 ["wheel"]).2.1 (exDoc1.constraints.headD defBlock)
    (by decide) (by decide)

/-- C2, counterexample: the claim says every node id in a selected element
block's node set appears exactly once in the output node block. In
`exDoc2`, node 7 is in the selected block's node set but has no node
definition line, and the writer's `if node_id in parsed_data['nodes']`
filter drops it: it appears zero times in the output node block. -/
theorem C2_counterexample :
    (7 : ℤ) ∈ (dictGetD exDoc2.elements "a" defBlock).nodes
    ∧ ("a", dictGetD exDoc2.elements "a" defBlock)
        ∈ targetElementBlocks exDoc2 (["A"].map pyLower)
    ∧ (nodeSectionIds exDoc2
        (constraintLoop exDoc2 (["A"].map pyLower)).2.all_nodes).count 7 = 0 := by
  decide

/-- C2, amended: every node id in a selected element block's memoized node
set THAT IS DEFINED in the parsed document's `nodes` mapping appears
exactly once in the output document's node block (ids with no node
definition are silently dropped). -/
theorem C2_amended (pd : ParsedData) (targets : List String) (k : String)
    (b : Block) (n : ℤ)
    (hb : (k, b) ∈ targetElementBlocks pd (targets.map pyLower))
    (hn : n ∈ b.nodes)
    (hdef : (dictGet pd.nodes n).isSome) :
    (nodeSectionIds pd
      (constraintLoop pd (targets.map pyLower)).2.all_nodes).count n = 1 := by
  have h1 : n ∈ step1Nodes pd (targets.map pyLower) :=
    nodes_subset_step1 pd (targets.map pyLower) k b hb hn
  have h2 : n ∈ (constraintLoop pd (targets.map pyLower)).2.all_nodes :=
    step1_subset_loop pd (targets.map pyLower) h1
  have hmem : n ∈ nodeSectionIds pd
      (constraintLoop pd (targets.map pyLower)).2.all_nodes := by
    unfold nodeSectionIds
    rw [List.mem_filter]
    exact ⟨(finSortAsc_mem _ n).mpr h2, hdef⟩
  have hnodup : (nodeSectionIds pd
      (constraintLoop pd (targets.map pyLower)).2.all_nodes).Nodup :=
    (finSortAsc_nodup _).filter _
  exact List.count_eq_one_of_mem hnodup hmem

/-- C2, witness for the amended theorem at `exDoc2`: the defined node 1
appears exactly once in the output node block. -/
theorem C2_amended_witness :
    (nodeSectionIds exDoc2
      (constraintLoop exDoc2 (["A"].map pyLower)).2.all_nodes).count 1 = 1 :=
  C2_amended exDoc2 ["A"] "a" (dictGetD exDoc2.elements "a" defBlock) 1
    (by decide) (by decide) (by decide)

/-- C3, counterexample: the claim says an unknown keyword line opens a new
block that is flushed into `others`. In `exDoc3`, the line `*Bogus, X=1`
is a keyword line with an unknown keyword, yet `others` is empty — the
line was retained as a data line of the open element block instead. -/
theorem C3_counterexample :
    (parse_keyword_line "*Bogus, X=1").1 = some "bogus"
    ∧ routeLookup "bogus" = none
    ∧ exDoc3.others = []
    ∧ "*Bogus, X=1" ∈ (dictGetD exDoc3.elements "a" defBlock).lines := by
  decide

/-- C3, amended: a keyword line whose keyword is unknown does NOT open a
new block (only `node` and routed keywords do); it is retained as a raw
line of the currently open block or discarded. Consequently the parsed
document's `others` collection is empty for every input. -/
theorem C3_amended (inpLines : List String) :
    (parse_inp_file inpLines).others = [] := by
  unfold parse_inp_file
  obtain ⟨h1, h2⟩ := parse_fold_others inpLines
    { result := emptyParsed, current_keyword := none,
      current_options := [], current_lines := [] } rfl trivial
  exact flushCurrent_others _ h1 h2

/-- C4: the node ids emitted in the output document's node block
(`sorted(nodes_needed)` restricted to defined ids) are in strictly
ascending numeric order, for every parsed document and needed-node set —
in particular for the set the extraction pipeline passes to the writer. -/
theorem C4_sort_invariant (pd : ParsedData) (needed : Finset ℤ) :
    List.Sorted (· < ·) (nodeSectionIds pd needed) :=
  (finSortAsc_sorted needed).filter (fun n => (dictGet pd.nodes n).isSome)

/-- C5, counterexample: the claim says an unparsable field is skipped
individually, the remaining fields of the same data line still being
parsed. In `exDoc5` the data line `10, 2, x, 3` yields the node set
`{2}`: the unparsable `x` aborts the rest of the line, so the parsable
field `3` is NOT included. -/
theorem C5_counterexample :
    pyInt "3" = some 3
    ∧ (pySplit "10, 2, x, 3" ',').drop 1 = [" 2", " x", " 3"]
    ∧ (dictGetD exDoc5.elements "a" defBlock).nodes = ({2} : Finset ℤ) := by
  decide

/-- C5, amended: within one element data line, fields after the skipped
element id are parsed left to right; the first unparsable field aborts the
REST OF THAT LINE (fields already parsed are kept, the following fields of
that line are discarded), and scanning resumes with the next data line. -/
theorem C5_amended (xs ys : List String) (bad : String)
    (hxs : ∀ p ∈ xs, (pyInt (pyStrip p)).isSome)
    (hbad : pyInt (pyStrip bad) = none) :
    collectUntilFail (xs ++ bad :: ys)
      = xs.filterMap (fun p => pyInt (pyStrip p)) := by
  induction xs with
  | nil => simp [collectUntilFail, hbad]
  | cons p xs ih =>
      obtain ⟨n, hn⟩ := Option.isSome_iff_exists.mp
        (hxs p (List.mem_cons_self p xs))
      simp [collectUntilFail, hn, List.filterMap_cons,
        ih (fun q hq => hxs q (List.mem_cons_of_mem p hq))]

/-- C5, witness for the amended theorem: `["2", "x", "3"]` parses to
`[2]`. -/
theorem C5_amended_witness :
    collectUntilFail (["2"] ++ "x" :: ["3"])
      = ["2"].filterMap (fun p => pyInt (pyStrip p)) :=
  C5_amended ["2"] ["3"] "x" (by decide) (by decide)

/-- C6: for a keyword routed with the index-last-wins policy, a block
whose index option value is absent or empty is silently dropped (the
parsed document is unchanged), and otherwise the block is stored under the
lowercased option value in the target collection — where a lookup now
yields the new block, regardless of any block previously stored under that
key (last write wins). -/
theorem C6_index_policy (result : ParsedData) (kw : String)
    (options : List (String × String)) (lines : List String) (tgt ik : String)
    (h : routeLookup kw = some (tgt, some ik, "index")) :
    (pyLower (dictGetD options ik "") = "" →
      _save_block result kw options lines = result)
    ∧ (pyLower (dictGetD options ik "") ≠ "" →
      dictGet (getCollection (_save_block result kw options lines) tgt)
        (pyLower (dictGetD options ik ""))
        = some (routedBlock kw options lines)) := by
  have htgt := route_index_target kw tgt ik h
  constructor
  · intro hkv
    unfold _save_block
    rw [h]
    simp [hkv]
  · intro hkv
    unfold _save_block
    rw [h]
    simp only [show ¬("index" = "append") from by decide, if_false,
      if_neg, reduceIte, Option.getD_some]
    rw [if_pos hkv]
    rcases htgt with rfl | rfl | rfl | rfl | rfl | rfl <;>
      simp [indexInto, getCollection, dictGet_dictInsert]

/-- C6, witness: an nset block with no nonempty `nset` option is dropped;
one with `nset=A` is stored under `a` and found there. -/
theorem C6_witness :
    _save_block emptyParsed "nset" [] ["*Nset"] = emptyParsed
    ∧ dictGet (getCollection
        (_save_block emptyParsed "nset" [("nset", "A")] ["*Nset, Nset=A"])
        "nsets") (pyLower (dictGetD [("nset", "A")] "nset" ""))
        = some (routedBlock "nset" [("nset", "A")] ["*Nset, Nset=A"]) :=
  ⟨(C6_index_policy emptyParsed "nset" [] ["*Nset"] "nsets" "nset"
      (by decide)).1 (by decide),
   (C6_index_policy emptyParsed "nset" [("nset", "A")] ["*Nset, Nset=A"]
      "nsets" "nset" (by decide)).2 (by decide)⟩

/-- C7: a constraint block whose lowercased `elset` option is one of the
requested (lowercased) group names is included among the relevant
constraints, whatever the needed-node sets are — in particular even when
it shares no node ids with the requested element blocks. -/
theorem C7_elset_inclusion (pd : ParsedData) (targets : List String) (b : Block)
    (hb : b ∈ pd.constraints)
    (h : pyLower (dictGetD b.options "elset" "") ∈ targets.map pyLower) :
    b ∈ (constraintLoop pd (targets.map pyLower)).1 :=
  loop_complete pd (targets.map pyLower) pd.constraints
    ([], initExtractState pd (targets.map pyLower)) b hb
    (validate_of_elset b (targets.map pyLower) _ h)

/-- C7, witness at `exDoc7`: the coupling block carrying `elset=HUB`,
which has no data lines at all, is included when `HUB` is requested. -/
theorem C7_witness :
    exDoc7.constraints.headD defBlock
      ∈ (constraintLoop exDoc7 (["HUB"].map pyLower)).1 :=
  C7_elset_inclusion exDoc7 ["HUB"] (exDoc7.constraints.headD defBlock)
    (by decide) (by decide)

/-- C8, counterexample: the claim asserts source order is preserved for
the required nset blocks. In `exDoc8`, nset A is redefined after nset B:
the stored A block (lines `*Nset, Nset=A` / `2`, source lines 7-8) comes
AFTER the B block (source lines 5-6) in the source, yet the output emits
the A block first, because a Python dict keeps an overwritten key at its
original (first-occurrence) position. -/
theorem C8_counterexample :
    exDoc8Lines.take 6
      = ["*Element, Type=T, Elset=W", "10, 1", "*Nset, Nset=A", "1",
         "*Nset, Nset=B", "1"]
    ∧ exDoc8Lines.drop 6
      = ["*Nset, Nset=A", "2", "*Tie, Tie Nset=A, Nset=B, Elset=W"]
    ∧ (dictGetD exDoc8.nsets "a" defBlock).lines = ["*Nset, Nset=A", "2"]
    ∧ (constraintLoop exDoc8 (["W"].map pyLower)).2.required_nsets
        = ({"a", "b"} : Finset String)
    ∧ requiredChunks exDoc8.nsets
        (constraintLoop exDoc8 (["W"].map pyLower)).2.required_nsets
      = ["*Nset, Nset=A\n", "2\n", "*Nset, Nset=B\n", "1\n"] := by
  decide

/-- C8, amended: order preservation holds with respect to the parsed
document's collection order. (i) The relevant constraints are a sublist
of the source constraint sequence, whose order is source order, so
constraint order is preserved unconditionally. (ii)/(iii) The required
nset (resp. elset) blocks are emitted in the order of the parsed
dictionary, i.e. the first-occurrence order of their names — which equals
source block order exactly when no required name was later redefined. -/
theorem C8_amended :
    (∀ (pd : ParsedData) (tl : List String),
        (constraintLoop pd tl).1.Sublist pd.constraints)
    ∧ (∀ (pd : ParsedData) (req : Finset String)
        (l1 l2 l3 : List (String × Block)) (k1 k2 : String) (b1 b2 : Block),
        pd.nsets = l1 ++ (k1, b1) :: (l2 ++ (k2, b2) :: l3) →
        k1 ∈ req → k2 ∈ req →
        ∃ c1 c2 c3, requiredChunks pd.nsets req
          = c1 ++ ((stripBlockLines b1.lines).map (fun l => l ++ "\n")
            ++ (c2 ++ ((stripBlockLines b2.lines).map (fun l => l ++ "\n")
              ++ c3))))
    ∧ (∀ (pd : ParsedData) (req : Finset String)
        (l1 l2 l3 : List (String × Block)) (k1 k2 : String) (b1 b2 : Block),
        pd.elsets = l1 ++ (k1, b1) :: (l2 ++ (k2, b2) :: l3) →
        k1 ∈ req → k2 ∈ req →
        ∃ c1 c2 c3, requiredChunks pd.elsets req
          = c1 ++ ((stripBlockLines b1.lines).map (fun l => l ++ "\n")
            ++ (c2 ++ ((stripBlockLines b2.lines).map (fun l => l ++ "\n")
              ++ c3)))) := by
  refine ⟨?_, ?_, ?_⟩
  · intro pd tl
    obtain ⟨l, hl, hsub⟩ :=
      loop_fst_prefix pd tl pd.constraints ([], initExtractState pd tl)
    unfold constraintLoop
    rw [hl]
    simpa using hsub
  · intro pd req l1 l2 l3 k1 k2 b1 b2 hd h1 h2
    rw [hd]
    exact requiredChunks_decomp req l1 l2 l3 k1 k2 b1 b2 h1 h2
  · intro pd req l1 l2 l3 k1 k2 b1 b2 hd h1 h2
    rw [hd]
    exact requiredChunks_decomp req l1 l2 l3 k1 k2 b1 b2 h1 h2

/-- C8, witness for the amended theorem at `exDoc8`: with both names
required, the emitted nset section decomposes around the stored A block
followed by the B block, the dictionary order. -/
theorem C8_amended_witness :
    ∃ c1 c2 c3, requiredChunks exDoc8.nsets ({"a", "b"} : Finset String)
      = c1 ++ ((stripBlockLines ["*Nset, Nset=A", "2"]).map (fun l => l ++ "\n")
        ++ (c2 ++ ((stripBlockLines ["*Nset, Nset=B", "1"]).map (fun l => l ++ "\n")
          ++ c3))) :=
  C8_amended.2.1 exDoc8 ({"a", "b"} : Finset String) [] [] [] "a" "b"
    { keyword := "nset", options := [("nset", "A")],
      lines := ["*Nset, Nset=A", "2"] }
    { keyword := "nset", options := [("nset", "B")],
      lines := ["*Nset, Nset=B", "1"] }
    (by decide) (by decide) (by decide)

/-- C9, counterexample: the claim says every key of the `nodes` mapping is
a positive integer, but the parser stores whatever integer `int()`
returns: a node data line with leading field `-5` stores the key `-5`. -/
theorem C9_counterexample :
    ((-5 : ℤ), "-5, 0., 0., 0.") ∈ exDoc9.nodes
    ∧ ¬ (0 : ℤ) < (-5 : ℤ) := by decide

/-- C9, amended: every key of the parsed document's `nodes` mapping comes
from a line whose leading comma-field parses as an integer, so all keys
are positive PROVIDED every such parsable leading field of the input is
positive; nonpositive ids are otherwise stored as-is. -/
theorem C9_amended (inpLines : List String)
    (H : ∀ l ∈ inpLines, ∀ n, leadField (pyRstrip l) = some n → 0 < n)
    (p : ℤ × String) (hp : p ∈ (parse_inp_file inpLines).nodes) :
    0 < p.1 := by
  unfold parse_inp_file at hp
  obtain ⟨hr, hl⟩ := parse_fold_keys (fun n => 0 < n) inpLines
    { result := emptyParsed, current_keyword := none,
      current_options := [], current_lines := [] }
    H (fun q hq => absurd hq (List.not_mem_nil q))
    (fun l hml => absurd hml (List.not_mem_nil l))
  exact flushCurrent_keys (fun n => 0 < n) _ hr hl p hp

/-- C9, witness for the amended theorem: in a document whose only
parsable leading field is `5`, the stored key 5 is positive. -/
theorem C9_amended_witness :
    ((5 : ℤ), "5, 0., 0.") ∈ (parse_inp_file ["*Node", "5, 0., 0."]).nodes
    ∧ (0 : ℤ) < ((5 : ℤ), "5, 0., 0.").1 :=
  ⟨by decide,
   C9_amended ["*Node", "5, 0., 0."]
     (by
       intro l hl n hn
       fin_cases hl
       · rw [show leadField (pyRstrip "*Node") = none from by decide] at hn
         exact absurd hn (by simp)
       · rw [show leadField (pyRstrip "5, 0., 0.") = some 5 from by decide] at hn
         have h5 := Option.some.inj hn
         omega)
     ((5 : ℤ), "5, 0., 0.") (by decide)⟩

/-- C10: the serializer's output bytes depend only on the CONTENTS of the
three set-valued inputs Python hands it as `set` objects
(`all_nodes_needed`, `required_nsets`, `required_elsets`): for any two
list representations with the same members, the emitted documents are
byte-identical. Since every other input is consumed deterministically,
two runs of the extractor on the same parsed document, requested group
list, and source label produce byte-identical output even though Python
set enumeration order is unspecified. -/
theorem C10_deterministic (source_file : Option String)
    (target_elsets : List String) (pd : ParsedData)
    (eb sb mb bb : List (String × Block)) (cs : List Block)
    (nr1 nr2 : List ℤ) (rn1 rn2 re1 re2 : List String)
    (hn : ∀ x, x ∈ nr1 ↔ x ∈ nr2)
    (hrn : ∀ x, x ∈ rn1 ↔ x ∈ rn2)
    (hre : ∀ x, x ∈ re1 ↔ x ∈ re2) :
    String.join (writeOutputOfReprs source_file target_elsets pd nr1
        eb sb mb bb cs rn1 re1)
      = String.join (writeOutputOfReprs source_file target_elsets pd nr2
        eb sb mb bb cs rn2 re2) := by
  have h1 : nr1.toFinset = nr2.toFinset := by
    ext x
    simp only [List.mem_toFinset]
    exact hn x
  have h2 : rn1.toFinset = rn2.toFinset := by
    ext x
    simp only [List.mem_toFinset]
    exact hrn x
  have h3 : re1.toFinset = re2.toFinset := by
    ext x
    simp only [List.mem_toFinset]
    exact hre x
  unfold writeOutputOfReprs
  rw [h1, h2, h3]

/-- C10, witness: two representations of the same sets (differing in
order and multiplicity) serialize to byte-identical output. -/
theorem C10_witness :
    String.join (writeOutputOfReprs none ["W"] emptyParsed [1, 2]
        [] [] [] [] [] ["a"] [])
      = String.join (writeOutputOfReprs none ["W"] emptyParsed [2, 1, 1]
        [] [] [] [] [] ["a", "a"] []) :=
  C10_deterministic none ["W"] emptyParsed [] [] [] [] [] [1, 2] [2, 1, 1]
    ["a"] ["a", "a"] [] []
    (fun x => by constructor <;> (intro h; simp only [List.mem_cons,
      List.not_mem_nil, or_false] at h ⊢; tauto))
    (fun x => by constructor <;> (intro h; simp only [List.mem_cons,
      List.not_mem_nil, or_false] at h ⊢; tauto))
    (fun x => Iff.rfl)

end Abq
